import Mathlib

/-!
Verification of the Resource Pool & Animation Scheduling subsystem of
Jiggle Factorial 3D.

The definitions below are shallow embeddings of the animation manager,
the easing library and the selection-feedback effect of
`src/js/animations.js`, and of the `BallPool` / `LabelPool` classes of
the pooling module.  Machine clocks are modelled as integers
(milliseconds); JS numbers are modelled as rationals where the code
only adds, divides and compares, and as reals where transcendental
functions appear.  JS object identity is modelled by a surrogate
natural-number id together with an explicit heap.
-/

/-- An animation record as built by `AnimationManager.add`: `startTime`,
`duration` and the `cancelled` flag from the source, plus a surrogate
`id` standing for the JS object identity of the record and a flag
recording whether an `onComplete` callback was supplied. -/
structure Animation where
  id : Nat
  startTime : Int
  duration : Int
  hasOnComplete : Bool
  cancelled : Bool
deriving DecidableEq, Repr

/-- `Math.min(elapsed / animation.duration, 1)` computed in
`AnimationManager.update`, with `elapsed = now - animation.startTime`. -/
def progressOf (a : Animation) (now : Int) : ℚ :=
  min (((now - a.startTime : Int) : ℚ) / ((a.duration : Int) : ℚ)) 1

/-- Observable callback invocations performed by one pass of
`AnimationManager.update`: `upd i p e` records a call of the animation
`i`'s update function with the given progress and elapsed values, and
`done i` records a call of its completion callback. -/
inductive AnimEvent where
  | upd (id : Nat) (progress : ℚ) (elapsed : Int)
  | done (id : Nat)
deriving DecidableEq, Repr

/-- The identity of the animation an event belongs to. -/
def AnimEvent.eid : AnimEvent → Nat
  | .upd i _ _ => i
  | .done i => i

/-- The callback invocations the filter body of `AnimationManager.update`
performs for one animation: nothing when `cancelled`; otherwise the
update function is called, and the completion callback is called as well
when `progress >= 1` and a callback was supplied. -/
def animEvents (now : Int) (a : Animation) : List AnimEvent :=
  if a.cancelled then []
  else if 1 ≤ progressOf a now ∧ a.hasOnComplete = true then
    [AnimEvent.upd a.id (progressOf a now) (now - a.startTime), AnimEvent.done a.id]
  else
    [AnimEvent.upd a.id (progressOf a now) (now - a.startTime)]

/-- The boolean the filter body of `AnimationManager.update` returns:
an animation is kept exactly when it is not cancelled and has not
reached `progress >= 1`. -/
def survives (now : Int) (a : Animation) : Bool :=
  !a.cancelled && !(decide (1 ≤ progressOf a now))

/-- One pass of the `activeAnimations.filter` in
`AnimationManager.update`: the surviving animations (in order) together
with the callback invocations the pass performed (in order). -/
def tick : List Animation → Int → List Animation × List AnimEvent
  | [], _ => ([], [])
  | a :: rest, now =>
      let r := tick rest now
      ((if survives now a then a :: r.1 else r.1), animEvents now a ++ r.2)

/-- Iterating `AnimationManager.update` at the given sequence of clock
readings, collecting the full trace of callback invocations. -/
def runTicks : List Animation → List Int → List Animation × List AnimEvent
  | l, [] => (l, [])
  | l, t :: ts =>
      let r := tick l t
      let r' := runTicks r.1 ts
      (r'.1, r.2 ++ r'.2)

/-- The `cancel` closure returned by `AnimationManager.add`: it sets the
`cancelled` flag of the animation it belongs to (identified here by its
surrogate id). -/
def cancelAnim (l : List Animation) (i : Nat) : List Animation :=
  l.map fun a => if a.id = i then { a with cancelled := true } else a

/-- The mutable state of the `AnimationManager` singleton:
`activeAnimations` and the `isRunning` flag. -/
structure ManagerState where
  activeAnimations : List Animation
  isRunning : Bool
deriving DecidableEq, Repr

/-- `AnimationManager.update`: runs the filter pass, then either
schedules the next frame (the loop keeps running) or stops. -/
def updateM (s : ManagerState) (now : Int) : ManagerState × List AnimEvent :=
  let r := tick s.activeAnimations now
  (⟨r.1, !r.1.isEmpty⟩, r.2)

/-- The animation record `AnimationManager.add` constructs:
`startTime := now`, `cancelled := false`. -/
def mkAnim (i : Nat) (now duration : Int) (hasOnComplete : Bool) : Animation :=
  ⟨i, now, duration, hasOnComplete, false⟩

/-- `AnimationManager.add`: pushes the new animation and, when the loop
is not running, runs `start` — which sets `isRunning` and synchronously
executes one `update` pass before `add` returns its handle. -/
def addM (s : ManagerState) (i : Nat) (duration : Int) (hasOnComplete : Bool)
    (now : Int) : ManagerState × List AnimEvent :=
  let s1 : ManagerState :=
    ⟨s.activeAnimations ++ [mkAnim i now duration hasOnComplete], s.isRunning⟩
  if s1.isRunning then (s1, [])
  else updateM ⟨s1.activeAnimations, true⟩ now

namespace Easing

open Real

/-- `Easing.easeOutElastic` from the source: special-cased at `t = 0`
and `t = 1`, otherwise `2^(-10t) * sin((10t - 0.75) * c4) + 1` with
`c4 = 2*pi/3`. -/
noncomputable def easeOutElastic (t : ℝ) : ℝ :=
  let c4 := (2 * Real.pi) / 3
  if t = 0 then 0
  else if t = 1 then 1
  else Real.rpow 2 (-10 * t) * Real.sin ((t * 10 - 0.75) * c4) + 1

/-- `Easing.easeOutBack` from the source, with `c1 = 1.70158` and
`c3 = c1 + 1`. -/
noncomputable def easeOutBack (t : ℝ) : ℝ :=
  let c1 : ℝ := 1.70158
  let c3 : ℝ := c1 + 1
  1 + c3 * (t - 1) ^ (3 : ℕ) + c1 * (t - 1) ^ (2 : ℕ)

/-- `Easing.easeInOutCubic` from the source. -/
noncomputable def easeInOutCubic (t : ℝ) : ℝ :=
  if t < 0.5 then 4 * t * t * t
  else 1 - (-2 * t + 2) ^ (3 : ℕ) / 2

/-- `Easing.easeOutQuad` from the source. -/
noncomputable def easeOutQuad (t : ℝ) : ℝ :=
  1 - (1 - t) * (1 - t)

/-- `Easing.easeInOutSine` from the source. -/
noncomputable def easeInOutSine (t : ℝ) : ℝ :=
  -(Real.cos (Real.pi * t) - 1) / 2

end Easing

/-- The visual fields of a ball that `animateBallSelection` reads and
writes: scale, position and the material's emissive intensity. -/
structure BallVisual where
  scaleX : ℝ
  scaleY : ℝ
  scaleZ : ℝ
  posX : ℝ
  posY : ℝ
  posZ : ℝ
  emissiveIntensity : ℝ

/-- The per-frame update function `animateBallSelection` registers with
the animation manager.  `startScale` is the `ball.scale.x` captured at
registration; `posX0`, `posY0` the captured clone of `ball.position`. -/
noncomputable def selectionUpdate (isCorrect : Bool) (startScale posX0 posY0 : ℝ)
    (progress : ℝ) (b : BallVisual) : BallVisual :=
  if isCorrect then
    let targetScale : ℝ := 1.2
    let scale := startScale + (targetScale - startScale) * Easing.easeOutElastic progress
    { b with scaleX := scale, scaleY := scale, scaleZ := scale,
             emissiveIntensity := 0.3 * (1 - progress) }
  else
    let shakeAmount := 0.3 * (1 - progress)
    let offsetX := Real.sin (progress * 40) * shakeAmount
    let offsetY := Real.sin (progress * 35) * shakeAmount
    { b with posX := posX0 + offsetX, posY := posY0 + offsetY }

/-- The `onComplete` callback `animateBallSelection` registers:
`ball.scale.set(1, 1, 1)`, `ball.position.copy(originalPosition)` and
`ball.material.emissiveIntensity = 0.05`. -/
noncomputable def selectionComplete (posX0 posY0 posZ0 : ℝ) (b : BallVisual) : BallVisual :=
  { b with scaleX := 1, scaleY := 1, scaleZ := 1,
           posX := posX0, posY := posY0, posZ := posZ0,
           emissiveIntensity := 0.05 }

/-- A complete run of the selection-feedback animation: the pre-effect
scale and position are captured from `b0` at registration, the update
function runs at the given intermediate progress values and a final time
at progress `1` (the tick on which the scheduler fires `onComplete`),
and then the completion callback runs. -/
noncomputable def animateBallSelectionRun (b0 : BallVisual) (isCorrect : Bool)
    (ps : List ℝ) : BallVisual :=
  let startScale := b0.scaleX
  let vals := ps ++ [1]
  selectionComplete b0.posX b0.posY b0.posZ
    (vals.foldl (fun b p => selectionUpdate isCorrect startScale b0.posX b0.posY p b) b0)

/-- A position or scale vector, as used by the pooled ball meshes. -/
structure Vec3 where
  x : ℚ
  y : ℚ
  z : ℚ
deriving DecidableEq, Repr

/-- The state of one text-label object that the `LabelPool` tracks. -/
structure LabelObj where
  visible : Bool
deriving DecidableEq, Repr

/-- The `LabelPool` class: a template cache keyed by the displayed
number's string, the active clone list, the loaded-font flag, a heap of
label objects keyed by surrogate id, and a ghost counter of how many
times `createLabel` ran. -/
structure LabelPool where
  pool : List (String × Nat)
  active : List Nat
  loadedFont : Bool
  heap : List (Nat × LabelObj)
  nextId : Nat
  createCount : Nat
deriving DecidableEq, Repr

/-- `LabelPool.createLabel`: builds a fresh label mesh, hidden by
default (`textMesh.visible = false`); the ghost counter records the
construction. -/
def LabelPool.createLabel (s : LabelPool) : Nat × LabelPool :=
  (s.nextId,
   { s with heap := s.heap ++ [(s.nextId, ⟨false⟩)],
            nextId := s.nextId + 1,
            createCount := s.createCount + 1 })

/-- `LabelPool.acquire`: `null` when no font is loaded; otherwise look
up or build the template for `number.toString()`, clone it, make the
clone visible, track it in the active list and return it. -/
def LabelPool.acquire (s : LabelPool) (number : Int) : Option Nat × LabelPool :=
  if s.loadedFont = false then (none, s)
  else
    let key := toString number
    let r :=
      match s.pool.lookup key with
      | some t => (t, s)
      | none =>
          let c := s.createLabel
          (c.1, { c.2 with pool := c.2.pool ++ [(key, c.1)] })
    let cid := r.2.nextId
    (some cid,
     { r.2 with heap := r.2.heap ++ [(cid, ⟨true⟩)],
                nextId := cid + 1,
                active := r.2.active ++ [cid] })

/-- `LabelPool.release`: remove the label from the active list when
present and hide it. -/
def LabelPool.release (s : LabelPool) (lid : Nat) : LabelPool :=
  { s with active := s.active.erase lid,
           heap := s.heap.map fun p => if p.1 = lid then (p.1, ⟨false⟩) else p }

/-- The ball mesh state that `BallPool` creates, hands out and resets:
visibility, position, scale, the material's color / emissive /
emissive-intensity fields and every `userData` field of the source. -/
structure Ball where
  visible : Bool
  position : Vec3
  scale : Vec3
  color : Int
  emissive : Int
  emissiveIntensity : ℚ
  velocity : Vec3
  isRotating : Bool
  rotationGroup : Int
  rotationAxis : String
  originalColor : Int
  rotationAngle : ℚ
  isCurrentlyHighlighted : Bool
  isFlashing : Bool
  label : Option Nat
  animationProgress : ℚ
  targetScale : ℚ
  baseSpeed : Option ℚ
  currentSpeedMultiplier : ℚ
  isSpeedBursting : Bool
  speedBurstEndTime : ℚ
  isColorSwapping : Bool
  targetColor : Option Int
  colorSwapProgress : ℚ
  colorSwapStartTime : ℚ
  initialColor : Option Int
  swapStartColor : Option Int
deriving DecidableEq, Repr

/-- The ball `BallPool.createBall` returns: a fresh visible mesh with
the default material and `userData` fields of the source. -/
def Ball.create : Ball where
  visible := true
  position := ⟨0, 0, 0⟩
  scale := ⟨1, 1, 1⟩
  color := 0xffffff
  emissive := 0xFFFFFF
  emissiveIntensity := 0.05
  velocity := ⟨0, 0, 0⟩
  isRotating := false
  rotationGroup := 0
  rotationAxis := ""
  originalColor := 0x42A5F5
  rotationAngle := 0
  isCurrentlyHighlighted := false
  isFlashing := false
  label := none
  animationProgress := 0
  targetScale := 1
  baseSpeed := none
  currentSpeedMultiplier := 1
  isSpeedBursting := false
  speedBurstEndTime := 0
  isColorSwapping := false
  targetColor := none
  colorSwapProgress := 0
  colorSwapStartTime := 0
  initialColor := none
  swapStartColor := none

/-- The `BallPool` class: a heap of ball objects keyed by surrogate id,
the free list `pool`, the `active` list, the injected label pool and
the id supply. -/
structure BallPool where
  heap : List (Nat × Ball)
  pool : List Nat
  active : List Nat
  labelPool : Option LabelPool
  nextId : Nat
deriving DecidableEq, Repr

/-- The `BallPool` constructor: empty free and active lists, no label
pool injected yet. -/
def BallPool.empty : BallPool :=
  ⟨[], [], [], none, 0⟩

/-- Look a ball up in the heap by id (JS dereferences the object). -/
def heapGet (h : List (Nat × Ball)) (i : Nat) : Option Ball :=
  h.lookup i

/-- Overwrite the ball stored under id `i` (JS mutates the object in
place, so every alias observes the update). -/
def heapSet (h : List (Nat × Ball)) (i : Nat) (b : Ball) : List (Nat × Ball) :=
  h.map fun p => if p.1 = i then (p.1, b) else p

/-- `BallPool.createBall` at the pool level: allocates a fresh ball in
the heap and returns its id. -/
def BallPool.createBall (s : BallPool) : Nat × BallPool :=
  (s.nextId, { s with heap := s.heap ++ [(s.nextId, Ball.create)], nextId := s.nextId + 1 })

/-- One iteration of the `BallPool.initialize` loop: create a ball,
hide it and push it onto the free list. -/
def BallPool.initStep (s : BallPool) : BallPool :=
  let r := s.createBall
  let s1 := { r.2 with heap := heapSet r.2.heap r.1 { Ball.create with visible := false } }
  { s1 with pool := s1.pool ++ [r.1] }

/-- `BallPool.initialize(maxSize)`: pre-allocates `maxSize` hidden balls
into the free list. -/
def BallPool.initialize : BallPool → Nat → BallPool
  | s, 0 => s
  | s, n + 1 => BallPool.initialize s.initStep n

/-- `BallPool.acquire(color)`: pop the last free ball if the free list
is non-empty, otherwise construct a new ball on demand; make it
visible, set its color and `originalColor`, push it onto the active
list and return it. -/
def BallPool.acquire (s : BallPool) (color : Int) : Nat × BallPool :=
  let r :=
    match s.pool.getLast? with
    | some bid => (bid, { s with pool := s.pool.dropLast })
    | none => s.createBall
  let s2 :=
    match heapGet r.2.heap r.1 with
    | some b =>
        let b1 := { b with visible := true, color := color, originalColor := color }
        { r.2 with heap := heapSet r.2.heap r.1 b1 }
    | none => r.2
  (r.1, { s2 with active := s2.active ++ [r.1] })

/-- The field resets `BallPool.release` performs on the ball itself
(everything except the label detachment, which is guarded). -/
def BallPool.resetBall (b : Ball) : Ball :=
  { b with visible := false
           position := ⟨0, 0, 0⟩
           velocity := ⟨0, 0, 0⟩
           isRotating := false
           isCurrentlyHighlighted := false
           isFlashing := false
           rotationAngle := 0
           rotationGroup := 0
           rotationAxis := ""
           color := b.originalColor
           emissive := 0xFFFFFF
           emissiveIntensity := 0.05
           scale := ⟨1, 1, 1⟩
           baseSpeed := none
           currentSpeedMultiplier := 1
           isSpeedBursting := false
           speedBurstEndTime := 0
           isColorSwapping := false
           targetColor := none
           colorSwapProgress := 0
           colorSwapStartTime := 0
           initialColor := none
           swapStartColor := none }

/-- The guarded label detachment in `BallPool.release`: only when a
label is attached and a label pool has been injected is the label
released into the label pool and detached from the ball. -/
def releaseCascade (b1 : Ball) (lp : Option LabelPool) : Ball × Option LabelPool :=
  match b1.label, lp with
  | some lid, some lpool => ({ b1 with label := none }, some (lpool.release lid))
  | _, _ => (b1, lp)

/-- `BallPool.release(ball)`: always resets the ball's own fields and,
when a label is attached and a label pool is injected, cascades the
release and detaches the label; only then is the active list checked —
the free/active lists move only when the ball is currently active. -/
def BallPool.release (s : BallPool) (bid : Nat) : BallPool :=
  match heapGet s.heap bid with
  | none => s
  | some b =>
      let r := releaseCascade (BallPool.resetBall b) s.labelPool
      let s1 := { s with heap := heapSet s.heap bid r.1, labelPool := r.2 }
      if bid ∈ s1.active then
        { s1 with active := s1.active.erase bid, pool := s1.pool ++ [bid] }
      else s1

/-- Releasing a list of balls in order (the `forEach` over the snapshot
in `BallPool.releaseAll`). -/
def BallPool.releaseList : BallPool → List Nat → BallPool
  | s, [] => s
  | s, bid :: rest => BallPool.releaseList (s.release bid) rest

/-- `BallPool.releaseAll()`: snapshot the active list, then release
every ball in it. -/
def BallPool.releaseAll (s : BallPool) : BallPool :=
  BallPool.releaseList s s.active

theorem animEvents_eid (now : Int) (b : Animation) :
    ∀ e ∈ animEvents now b, e.eid = b.id := by
  intro e he
  unfold animEvents at he
  split at he
  · exact absurd he (List.not_mem_nil e)
  · split at he
    · simp only [List.mem_cons, List.not_mem_nil, or_false] at he
      rcases he with h | h <;> subst h <;> rfl
    · simp only [List.mem_cons, List.not_mem_nil, or_false] at he
      subst he; rfl

theorem tick_nil (now : Int) : tick [] now = ([], []) := rfl

theorem tick_cons (now : Int) (a : Animation) (rest : List Animation) :
    tick (a :: rest) now =
      ((if survives now a then a :: (tick rest now).1 else (tick rest now).1),
       animEvents now a ++ (tick rest now).2) := rfl

theorem tick_events_eid (now : Int) :
    ∀ l : List Animation, ∀ e ∈ (tick l now).2, e.eid ∈ l.map Animation.id := by
  intro l
  induction l with
  | nil => simp [tick_nil]
  | cons b rest ih =>
    intro e he
    rw [tick_cons] at he
    simp only [List.mem_append] at he
    rcases he with h | h
    · simp [animEvents_eid now b e h]
    · simp only [List.map_cons, List.mem_cons]
      exact Or.inr (ih e h)

theorem tick_sublist (now : Int) : ∀ l : List Animation, (tick l now).1.Sublist l := by
  intro l
  induction l with
  | nil => simp [tick_nil]
  | cons b rest ih =>
    rw [tick_cons]
    dsimp only
    split
    · exact ih.cons₂ b
    · exact ih.cons b

theorem tick_mem (now : Int) (l : List Animation) {b : Animation}
    (h : b ∈ (tick l now).1) : b ∈ l :=
  (tick_sublist now l).subset h

theorem survives_iff (now : Int) (a : Animation) :
    survives now a = true ↔ a.cancelled = false ∧ ¬(1 ≤ progressOf a now) := by
  simp [survives]

theorem progressOf_le_one (a : Animation) (now : Int) : progressOf a now ≤ 1 :=
  min_le_right _ _

theorem progressOf_nonneg (a : Animation) (now : Int)
    (hst : a.startTime ≤ now) (hd : 0 < a.duration) : 0 ≤ progressOf a now := by
  unfold progressOf
  have h1 : (0 : ℚ) ≤ ((now - a.startTime : Int) : ℚ) := by
    exact_mod_cast Int.sub_nonneg.mpr hst
  have h2 : (0 : ℚ) < ((a.duration : Int) : ℚ) := by exact_mod_cast hd
  exact le_min (div_nonneg h1 h2.le) zero_le_one

theorem progressOf_eq_one (a : Animation) (now : Int)
    (hd : 0 < a.duration) (h : a.startTime + a.duration ≤ now) :
    progressOf a now = 1 := by
  unfold progressOf
  have h2 : (0 : ℚ) < ((a.duration : Int) : ℚ) := by exact_mod_cast hd
  have h1 : ((a.duration : Int) : ℚ) ≤ ((now - a.startTime : Int) : ℚ) := by
    exact_mod_cast Int.le_sub_left_of_add_le (by omega)
  exact min_eq_right ((one_le_div h2).mpr h1)

theorem progressOf_lt_one (a : Animation) (now : Int)
    (hd : 0 < a.duration) (h : now < a.startTime + a.duration) :
    progressOf a now < 1 := by
  unfold progressOf
  have h2 : (0 : ℚ) < ((a.duration : Int) : ℚ) := by exact_mod_cast hd
  have h1 : ((now - a.startTime : Int) : ℚ) < ((a.duration : Int) : ℚ) := by
    exact_mod_cast (by omega : now - a.startTime < a.duration)
  exact lt_of_le_of_lt (min_le_left _ _) ((div_lt_one h2).mpr h1)

theorem tick_keeps (now : Int) :
    ∀ l : List Animation, ∀ a ∈ l, a.cancelled = false → ¬(1 ≤ progressOf a now) →
      a ∈ (tick l now).1 := by
  intro l
  induction l with
  | nil => intro a ha; exact absurd ha (List.not_mem_nil a)
  | cons b rest ih =>
    intro a ha hc hp
    rw [tick_cons]
    dsimp only
    rcases List.mem_cons.mp ha with h | h
    · subst h
      rw [if_pos ((survives_iff now a).mpr ⟨hc, hp⟩)]
      exact List.mem_cons_self a _
    · have hmem := ih a h hc hp
      split
      · exact List.mem_cons_of_mem _ hmem
      · exact hmem

theorem tick_removes (now : Int) :
    ∀ l : List Animation, (l.map Animation.id).Nodup → ∀ a ∈ l, 1 ≤ progressOf a now →
      a.id ∉ (tick l now).1.map Animation.id := by
  intro l
  induction l with
  | nil => intro _ a ha; exact absurd ha (List.not_mem_nil a)
  | cons b rest ih =>
    intro hnd a ha hp
    rw [List.map_cons, List.nodup_cons] at hnd
    obtain ⟨hbid, hnd'⟩ := hnd
    rw [tick_cons]
    dsimp only
    rcases List.mem_cons.mp ha with h | h
    · subst h
      have hs : ¬(survives now a = true) := by
        intro hs; exact ((survives_iff now a).mp hs).2 hp
      rw [if_neg hs]
      intro hmem
      exact hbid (((tick_sublist now rest).map Animation.id).subset hmem)
    · intro hmem
      by_cases hsb : survives now b = true
      · rw [if_pos hsb] at hmem
        simp only [List.map_cons, List.mem_cons] at hmem
        rcases hmem with h1 | h1
        · exact hbid (by rw [← h1]; exact List.mem_map_of_mem Animation.id h)
        · exact ih hnd' a h hp h1
      · rw [if_neg hsb] at hmem
        exact ih hnd' a h hp hmem

theorem tick_nodup (now : Int) (l : List Animation)
    (h : (l.map Animation.id).Nodup) : ((tick l now).1.map Animation.id).Nodup :=
  h.sublist ((tick_sublist now l).map Animation.id)

theorem tick_upd_eq (now : Int) :
    ∀ l : List Animation, (l.map Animation.id).Nodup → ∀ a ∈ l, ∀ p e,
      AnimEvent.upd a.id p e ∈ (tick l now).2 →
      a.cancelled = false ∧ p = progressOf a now ∧ e = now - a.startTime := by
  intro l
  induction l with
  | nil => intro _ a ha; exact absurd ha (List.not_mem_nil a)
  | cons b rest ih =>
    intro hnd a ha p e hmem
    rw [List.map_cons, List.nodup_cons] at hnd
    obtain ⟨hbid, hnd'⟩ := hnd
    rw [tick_cons] at hmem
    dsimp only at hmem
    rw [List.mem_append] at hmem
    rcases List.mem_cons.mp ha with hab | harest
    · subst hab
      rcases hmem with h | h
      · unfold animEvents at h
        split at h
        case isTrue hc => exact absurd h (List.not_mem_nil _)
        case isFalse hc =>
          rw [Bool.not_eq_true] at hc
          refine ⟨hc, ?_⟩
          split at h <;>
            simp only [List.mem_cons, List.not_mem_nil, or_false] at h
          · rcases h with h | h
            · injection h with h1 h2 h3
              exact ⟨h2, h3⟩
            · exact absurd h (by simp)
          · injection h with h1 h2 h3
            exact ⟨h2, h3⟩
      · exfalso
        have heid := tick_events_eid now rest _ h
        simp only [AnimEvent.eid] at heid
        exact hbid heid
    · rcases hmem with h | h
      · exfalso
        have heid := animEvents_eid now b _ h
        simp only [AnimEvent.eid] at heid
        exact hbid (by rw [← heid]; exact List.mem_map_of_mem Animation.id harest)
      · exact ih hnd' a harest p e h

theorem tick_count_done (now : Int) :
    ∀ l : List Animation, (l.map Animation.id).Nodup → ∀ a ∈ l,
      (tick l now).2.count (AnimEvent.done a.id) =
        (if a.cancelled = false ∧ a.hasOnComplete = true ∧ 1 ≤ progressOf a now
         then 1 else 0) := by
  intro l
  induction l with
  | nil => intro _ a ha; exact absurd ha (List.not_mem_nil a)
  | cons b rest ih =>
    intro hnd a ha
    rw [List.map_cons, List.nodup_cons] at hnd
    obtain ⟨hbid, hnd'⟩ := hnd
    rw [tick_cons]
    dsimp only
    rw [List.count_append]
    rcases List.mem_cons.mp ha with hab | harest
    · subst hab
      have hz : (tick rest now).2.count (AnimEvent.done a.id) = 0 := by
        rw [List.count_eq_zero]
        intro hm
        have heid := tick_events_eid now rest _ hm
        simp only [AnimEvent.eid] at heid
        exact hbid heid
      rw [hz, Nat.add_zero]
      unfold animEvents
      split
      case isTrue hc =>
        rw [if_neg (by simp [hc])]
        simp
      case isFalse hc =>
        rw [Bool.not_eq_true] at hc
        split
        case isTrue hcond =>
          rw [if_pos ⟨hc, hcond.2, hcond.1⟩]
          simp [List.count_cons]
        case isFalse hcond =>
          rw [if_neg (fun hrhs => hcond ⟨hrhs.2.2, hrhs.2.1⟩)]
          simp [List.count_cons]
    · have hz : (animEvents now b).count (AnimEvent.done a.id) = 0 := by
        rw [List.count_eq_zero]
        intro hm
        have heid := animEvents_eid now b _ hm
        simp only [AnimEvent.eid] at heid
        exact hbid (by rw [← heid]; exact List.mem_map_of_mem Animation.id harest)
      rw [hz, Nat.zero_add]
      exact ih hnd' a harest

theorem runTicks_nil (l : List Animation) : runTicks l [] = (l, []) := rfl

theorem runTicks_cons (l : List Animation) (t : Int) (ts : List Int) :
    runTicks l (t :: ts) =
      ((runTicks (tick l t).1 ts).1, (tick l t).2 ++ (runTicks (tick l t).1 ts).2) := rfl

theorem runTicks_id_free :
    ∀ (times : List Int) (l : List Animation) (i : Nat), (∀ b ∈ l, b.id ≠ i) →
      (∀ e ∈ (runTicks l times).2, e.eid ≠ i) ∧ (∀ b ∈ (runTicks l times).1, b.id ≠ i) := by
  intro times
  induction times with
  | nil =>
    intro l i h
    exact ⟨by simp [runTicks_nil], by simpa [runTicks_nil] using h⟩
  | cons t ts ih =>
    intro l i h
    have h1 : ∀ e ∈ (tick l t).2, e.eid ≠ i := by
      intro e he hei
      have hm := tick_events_eid t l e he
      rw [hei] at hm
      obtain ⟨b, hb, hbi⟩ := List.mem_map.mp hm
      exact h b hb hbi
    have h2 : ∀ b ∈ (tick l t).1, b.id ≠ i := fun b hb => h b (tick_mem t l hb)
    obtain ⟨ih1, ih2⟩ := ih (tick l t).1 i h2
    refine ⟨?_, ?_⟩
    · rw [runTicks_cons]
      dsimp only
      intro e he
      rcases List.mem_append.mp he with h' | h'
      · exact h1 e h'
      · exact ih1 e h'
    · rw [runTicks_cons]
      dsimp only
      exact ih2

theorem runTicks_completion_aux (a : Animation)
    (hnc : a.cancelled = false) (hoc : a.hasOnComplete = true) (hdur : 0 < a.duration) :
    ∀ (times : List Int) (l : List Animation), a ∈ l → (l.map Animation.id).Nodup →
      (∀ t ∈ times, a.startTime ≤ t) → (∃ t ∈ times, a.startTime + a.duration ≤ t) →
      (∀ p e, AnimEvent.upd a.id p e ∈ (runTicks l times).2 →
         0 ≤ p ∧ p ≤ 1 ∧ (a.duration ≤ e → p = 1)) ∧
      (runTicks l times).2.count (AnimEvent.done a.id) = 1 ∧
      a.id ∉ (runTicks l times).1.map Animation.id := by
  intro times
  induction times with
  | nil =>
    intro l _ _ _ hreach
    simp at hreach
  | cons t ts ih =>
    intro l ha hids hstart hreach
    have hst : a.startTime ≤ t := hstart t (List.mem_cons_self t ts)
    rw [runTicks_cons]
    dsimp only
    by_cases hdl : a.startTime + a.duration ≤ t
    · have hp1 : progressOf a t = 1 := progressOf_eq_one a t hdur hdl
      have hcnt : (tick l t).2.count (AnimEvent.done a.id) = 1 := by
        rw [tick_count_done t l hids a ha, if_pos ⟨hnc, hoc, hp1.ge⟩]
      have habs : a.id ∉ (tick l t).1.map Animation.id :=
        tick_removes t l hids a ha hp1.ge
      have hfree : ∀ b ∈ (tick l t).1, b.id ≠ a.id := by
        intro b hb hbe
        exact habs (hbe ▸ List.mem_map_of_mem Animation.id hb)
      obtain ⟨hev, hlist⟩ := runTicks_id_free ts (tick l t).1 a.id hfree
      refine ⟨?_, ?_, ?_⟩
      · intro p e hmem
        rcases List.mem_append.mp hmem with h | h
        · obtain ⟨_, hpe, hee⟩ := tick_upd_eq t l hids a ha p e h
          subst hpe
          exact ⟨by rw [hp1]; norm_num, progressOf_le_one a t, fun _ => hp1⟩
        · exact absurd rfl (hev _ h)
      · rw [List.count_append, hcnt]
        have hz : (runTicks (tick l t).1 ts).2.count (AnimEvent.done a.id) = 0 := by
          rw [List.count_eq_zero]
          intro hm
          exact hev _ hm rfl
        rw [hz]
      · intro hm
        obtain ⟨b, hb, hbe⟩ := List.mem_map.mp hm
        exact hlist b hb hbe
    · push_neg at hdl
      have hplt : progressOf a t < 1 := progressOf_lt_one a t hdur hdl
      have hkeep : a ∈ (tick l t).1 := tick_keeps t l a ha hnc (not_le.mpr hplt)
      have hids' := tick_nodup t l hids
      have hstart' : ∀ t' ∈ ts, a.startTime ≤ t' :=
        fun t' h => hstart t' (List.mem_cons_of_mem t h)
      have hreach' : ∃ t' ∈ ts, a.startTime + a.duration ≤ t' := by
        obtain ⟨t0, ht0, hd0⟩ := hreach
        rcases List.mem_cons.mp ht0 with rfl | h
        · exact absurd hd0 (not_le.mpr hdl)
        · exact ⟨t0, h, hd0⟩
      obtain ⟨ih1, ih2, ih3⟩ := ih (tick l t).1 hkeep hids' hstart' hreach'
      refine ⟨?_, ?_, ih3⟩
      · intro p e hmem
        rcases List.mem_append.mp hmem with h | h
        · obtain ⟨_, hpe, hee⟩ := tick_upd_eq t l hids a ha p e h
          subst hpe
          subst hee
          refine ⟨progressOf_nonneg a t hst hdur, progressOf_le_one a t, ?_⟩
          intro hde
          exfalso
          omega
        · exact ih1 p e h
      · rw [List.count_append]
        have hz : (tick l t).2.count (AnimEvent.done a.id) = 0 := by
          rw [tick_count_done t l hids a ha, if_neg]
          intro hcond
          exact absurd hcond.2.2 (not_le.mpr hplt)
        rw [hz, ih2]

/-- Claim C1: for every animation registered with positive duration `D`
and never cancelled, the progress passed to its update function on
every tick stays within `[0, 1]`; on any tick where the elapsed time has
reached `D` the progress is exactly `1`; its completion callback fires
exactly once over the whole tick sequence — never zero times and never
twice — and the animation leaves the active collection on the very tick
whose clock reading is past its deadline. -/
theorem animation_completes_exactly_once
    (l : List Animation) (a : Animation) (times : List Int)
    (ha : a ∈ l) (hnc : a.cancelled = false) (hoc : a.hasOnComplete = true)
    (hdur : 0 < a.duration)
    (hids : (l.map Animation.id).Nodup)
    (hstart : ∀ t ∈ times, a.startTime ≤ t)
    (hreach : ∃ t ∈ times, a.startTime + a.duration ≤ t) :
    (∀ p e, AnimEvent.upd a.id p e ∈ (runTicks l times).2 →
       0 ≤ p ∧ p ≤ 1 ∧ (a.duration ≤ e → p = 1)) ∧
    (runTicks l times).2.count (AnimEvent.done a.id) = 1 ∧
    (∀ now : Int, a.startTime + a.duration ≤ now →
       a.id ∉ (tick l now).1.map Animation.id) ∧
    a.id ∉ (runTicks l times).1.map Animation.id := by
  obtain ⟨h1, h2, h4⟩ := runTicks_completion_aux a hnc hoc hdur times l ha hids hstart hreach
  refine ⟨h1, h2, ?_, h4⟩
  intro now hnow
  exact tick_removes now l hids a ha (progressOf_eq_one a now hdur hnow).ge

/-- Concrete instance of the animation used in the witness below:
registered at time 0 with duration 500 and a completion callback. -/
def witnessAnim : Animation :=
  ⟨0, 0, 500, true, false⟩

/-- Witness for claim C1's theorem at a concrete input: one animation of
duration 500 ticked at times 100, 500 and 600 fires its completion
callback exactly once and is gone from the active collection. -/
theorem animation_completes_exactly_once_witness :
    (runTicks [witnessAnim] [100, 500, 600]).2.count (AnimEvent.done 0) = 1 ∧
    0 ∉ (runTicks [witnessAnim] [100, 500, 600]).1.map Animation.id := by
  have h := animation_completes_exactly_once [witnessAnim] witnessAnim [100, 500, 600]
    (by decide) rfl rfl (by decide) (by decide) (by decide) (by decide)
  exact ⟨h.2.1, h.2.2.2⟩

theorem tick_cancelled_silent (l : List Animation) (i : Nat) (now : Int) :
    (∀ b ∈ l, b.id = i → b.cancelled = true) →
    (∀ e ∈ (tick l now).2, e.eid ≠ i) ∧ (∀ b ∈ (tick l now).1, b.id ≠ i) := by
  induction l with
  | nil =>
    intro _
    simp [tick_nil]
  | cons b rest ih =>
    intro h
    have hrest := ih fun x hx => h x (List.mem_cons_of_mem b hx)
    constructor
    · intro e he
      rw [tick_cons] at he
      dsimp only at he
      rcases List.mem_append.mp he with h' | h'
      · have heid := animEvents_eid now b e h'
        intro hei
        have hbid : b.id = i := by rw [← heid, hei]
        have hc := h b (List.mem_cons_self b rest) hbid
        unfold animEvents at h'
        rw [if_pos hc] at h'
        exact absurd h' (List.not_mem_nil e)
      · exact hrest.1 e h'
    · intro x hx
      rw [tick_cons] at hx
      dsimp only at hx
      by_cases hs : survives now b = true
      · rw [if_pos hs] at hx
        rcases List.mem_cons.mp hx with h' | h'
        · subst h'
          intro hbi
          have hc := h x (List.mem_cons_self x rest) hbi
          have hnc := ((survives_iff now x).mp hs).1
          simp [hc] at hnc
        · exact hrest.2 x h'
      · rw [if_neg hs] at hx
        exact hrest.2 x hx

theorem cancelAnim_cancelled (l : List Animation) (i : Nat) :
    ∀ b ∈ cancelAnim l i, b.id = i → b.cancelled = true := by
  intro b hb hbi
  unfold cancelAnim at hb
  obtain ⟨a, ha, hab⟩ := List.mem_map.mp hb
  by_cases h : a.id = i
  · rw [if_pos h] at hab
    rw [← hab]
  · rw [if_neg h] at hab
    subst hab
    exact absurd hbi h

theorem runTicks_cancelled_silent :
    ∀ (times : List Int) (l : List Animation) (i : Nat),
      (∀ b ∈ l, b.id = i → b.cancelled = true) →
      ∀ e ∈ (runTicks l times).2, e.eid ≠ i := by
  intro times
  induction times with
  | nil =>
    intro l i _ e he
    simp [runTicks_nil] at he
  | cons t ts ih =>
    intro l i h e he
    rw [runTicks_cons] at he
    dsimp only at he
    obtain ⟨h1, h2⟩ := tick_cancelled_silent l i t h
    rcases List.mem_append.mp he with h' | h'
    · exact h1 e h'
    · exact ih (tick l t).1 i (fun b hb hbi => absurd hbi (h2 b hb)) e h'

/-- Claim C2: once an animation's handle has been cancelled, no
subsequent tick invokes its update function or its completion callback
(so an animation cancelled before its first tick is never updated at
all), and the very next tick removes it from the active collection. -/
theorem cancelled_animation_never_updates (l : List Animation) (i : Nat) (now : Int)
    (times : List Int) :
    (∀ b ∈ (tick (cancelAnim l i) now).1, b.id ≠ i) ∧
    (∀ e ∈ (runTicks (cancelAnim l i) times).2, e.eid ≠ i) :=
  ⟨(tick_cancelled_silent (cancelAnim l i) i now (cancelAnim_cancelled l i)).2,
   runTicks_cancelled_silent times (cancelAnim l i) i (cancelAnim_cancelled l i)⟩

/-- Claim C8: at every quiescent point the driver's `isRunning` flag
holds exactly when the active collection is non-empty — a tick that
empties the collection marks the driver stopped instead of scheduling a
next frame, and an `add` on a stopped driver restarts it (its
synchronous first tick re-establishes the invariant). -/
theorem scheduler_driver_running_iff_nonempty (s : ManagerState) (now now' : Int)
    (i : Nat) (d : Int) (c : Bool) :
    ((updateM s now).1.isRunning = true ↔ (updateM s now).1.activeAnimations ≠ []) ∧
    ((addM s i d c now').1.isRunning = true ↔ (addM s i d c now').1.activeAnimations ≠ []) := by
  constructor
  · simp [updateM, List.isEmpty_iff]
  · unfold addM
    dsimp only
    split
    · simp_all
    · simp [updateM, List.isEmpty_iff]

theorem tick_append (now : Int) (l1 l2 : List Animation) :
    (tick (l1 ++ l2) now).2 = (tick l1 now).2 ++ (tick l2 now).2 := by
  induction l1 with
  | nil => simp [tick_nil]
  | cons b rest ih =>
    rw [List.cons_append, tick_cons, tick_cons]
    dsimp only
    rw [ih, List.append_assoc]

/-- Claim C10: when `add` finds the driver stopped it synchronously runs
one full tick before returning, so the newly registered animation's
update function is invoked during the `add` call itself, with progress
`0` and elapsed time `0`; when the driver is already running, `add`
performs no synchronous tick at all. -/
theorem add_runs_first_tick_synchronously (s : ManagerState) (i : Nat) (d : Int)
    (c : Bool) (now : Int) :
    (s.isRunning = false → 0 < d → AnimEvent.upd i 0 0 ∈ (addM s i d c now).2) ∧
    (s.isRunning = true → (addM s i d c now).2 = []) := by
  constructor
  · intro hstop hd
    unfold addM
    dsimp only
    rw [if_neg (by simp [hstop])]
    unfold updateM
    dsimp only
    rw [tick_append]
    apply List.mem_append_right
    have hp : progressOf (mkAnim i now d c) now = 0 := by
      unfold progressOf mkAnim
      simp
    rw [tick_cons, tick_nil]
    show AnimEvent.upd i 0 0 ∈ animEvents now (mkAnim i now d c) ++ []
    rw [List.append_nil]
    unfold animEvents
    rw [if_neg (by simp [mkAnim])]
    rw [if_neg (by rw [hp]; norm_num)]
    have hev : AnimEvent.upd i 0 0 =
        AnimEvent.upd (mkAnim i now d c).id (progressOf (mkAnim i now d c) now)
          (now - (mkAnim i now d c).startTime) := by
      rw [hp]
      simp [mkAnim]
    rw [hev]
    exact List.mem_cons_self _ _
  · intro hrun
    unfold addM
    dsimp only
    rw [if_pos (by simp [hrun])]

/-- Witness for claim C10's theorem: adding an animation of duration 500
to a stopped manager at time 0 invokes its update function with progress
`0` and elapsed `0` during the `add` call. -/
theorem add_runs_first_tick_synchronously_witness :
    AnimEvent.upd 0 0 0 ∈ (addM ⟨[], false⟩ 0 500 false 0).2 :=
  (add_runs_first_tick_synchronously ⟨[], false⟩ 0 500 false 0).1 rfl (by norm_num)

/-- Claim C9: every easing function of the library maps `0` to `0` and
`1` to `1`, `easeInOutCubic` maps `0.5` to `0.5`, and the back and
elastic easings do exceed `1` mid-curve — the overshoot the design
permits. -/
theorem easing_endpoint_values :
    Easing.easeOutElastic 0 = 0 ∧ Easing.easeOutElastic 1 = 1 ∧
    Easing.easeOutBack 0 = 0 ∧ Easing.easeOutBack 1 = 1 ∧
    Easing.easeInOutCubic 0 = 0 ∧ Easing.easeInOutCubic 1 = 1 ∧
    Easing.easeInOutCubic 0.5 = 0.5 ∧
    Easing.easeOutQuad 0 = 0 ∧ Easing.easeOutQuad 1 = 1 ∧
    Easing.easeInOutSine 0 = 0 ∧ Easing.easeInOutSine 1 = 1 ∧
    (∃ t : ℝ, 0 < t ∧ t < 1 ∧ 1 < Easing.easeOutBack t) ∧
    (∃ t : ℝ, 0 < t ∧ t < 1 ∧ 1 < Easing.easeOutElastic t) := by
  refine ⟨?_, ?_, ?_, ?_, ?_, ?_, ?_, ?_, ?_, ?_, ?_, ?_, ?_⟩
  · simp [Easing.easeOutElastic]
  · simp [Easing.easeOutElastic]
  · norm_num [Easing.easeOutBack]
  · norm_num [Easing.easeOutBack]
  · norm_num [Easing.easeInOutCubic]
  · norm_num [Easing.easeInOutCubic]
  · norm_num [Easing.easeInOutCubic]
  · norm_num [Easing.easeOutQuad]
  · norm_num [Easing.easeOutQuad]
  · simp [Easing.easeInOutSine]
  · norm_num [Easing.easeInOutSine, Real.cos_pi]
  · exact ⟨0.8, by norm_num, by norm_num, by norm_num [Easing.easeOutBack]⟩
  · refine ⟨0.15, by norm_num, by norm_num, ?_⟩
    have h0 : (0.15 : ℝ) ≠ 0 := by norm_num
    have h1 : (0.15 : ℝ) ≠ 1 := by norm_num
    have hval : Easing.easeOutElastic 0.15 =
        Real.rpow 2 (-10 * 0.15) *
          Real.sin (((0.15 : ℝ) * 10 - 0.75) * ((2 * Real.pi) / 3)) + 1 := by
      simp only [Easing.easeOutElastic]
      rw [if_neg h0, if_neg h1]
    rw [hval]
    have harg : (((0.15 : ℝ)) * 10 - 0.75) * ((2 * Real.pi) / 3) = Real.pi / 2 := by ring
    rw [harg, Real.sin_pi_div_two, mul_one]
    have hpow : (0 : ℝ) < Real.rpow 2 (-10 * 0.15) :=
      Real.rpow_pos_of_pos (by norm_num) _
    linarith

/-- The concrete pre-effect ball used to refute claim C4: scale 1/2
(for instance mid-pulse), position (3, 4, 5), emissive intensity 0.2. -/
noncomputable def preEffectBall : BallVisual :=
  ⟨1/2, 1/2, 1/2, 3, 4, 5, 0.2⟩

/-- Counterexample to claim C4: running the selection feedback to
completion on a ball whose pre-effect scale is 1/2 and pre-effect
emissive intensity is 0.2 leaves scale 1 and emissive intensity 0.05 —
the fixed canonical values, not the captured pre-effect values. -/
theorem selection_restore_not_pre_effect :
    (animateBallSelectionRun preEffectBall true []).scaleX = 1 ∧
    preEffectBall.scaleX = 1 / 2 ∧
    (animateBallSelectionRun preEffectBall true []).emissiveIntensity = 0.05 ∧
    preEffectBall.emissiveIntensity = 0.2 ∧
    (1 : ℝ) ≠ 1 / 2 ∧ (0.05 : ℝ) ≠ 0.2 := by
  refine ⟨rfl, rfl, rfl, rfl, by norm_num, by norm_num⟩

/-- Claim C4 (amended): on completion the selection feedback restores
the ball's position exactly to the cloned pre-effect position, for both
outcomes and however many intermediate frames ran; but scale is set to
the fixed value (1, 1, 1) and emissive intensity to the fixed base value
0.05, regardless of the captured pre-effect scale and pre-effect
emissive intensity (the captured scale is used only as the
interpolation start). -/
theorem selection_complete_restores_position_and_canonical_scale
    (b0 : BallVisual) (isCorrect : Bool) (ps : List ℝ) :
    (animateBallSelectionRun b0 isCorrect ps).posX = b0.posX ∧
    (animateBallSelectionRun b0 isCorrect ps).posY = b0.posY ∧
    (animateBallSelectionRun b0 isCorrect ps).posZ = b0.posZ ∧
    (animateBallSelectionRun b0 isCorrect ps).scaleX = 1 ∧
    (animateBallSelectionRun b0 isCorrect ps).scaleY = 1 ∧
    (animateBallSelectionRun b0 isCorrect ps).scaleZ = 1 ∧
    (animateBallSelectionRun b0 isCorrect ps).emissiveIntensity = 0.05 :=
  ⟨rfl, rfl, rfl, rfl, rfl, rfl, rfl⟩

theorem heapLookup_cons (j k : Nat) (v : Ball) (rest : List (Nat × Ball)) :
    List.lookup j ((k, v) :: rest) = if j = k then some v else List.lookup j rest := by
  by_cases h : j = k
  · subst h
    simp [List.lookup]
  · have hb : (j == k) = false := beq_eq_false_iff_ne.mpr h
    simp [List.lookup, hb, h]

theorem heapGet_isSome_heapSet (i j : Nat) (b : Ball) :
    ∀ hp : List (Nat × Ball),
      (heapGet (heapSet hp i b) j).isSome = (heapGet hp j).isSome := by
  intro hp
  induction hp with
  | nil => rfl
  | cons p rest ih =>
    obtain ⟨k, x⟩ := p
    unfold heapSet at *
    simp only [List.map_cons]
    unfold heapGet
    by_cases hki : k = i
    · rw [if_pos hki, heapLookup_cons, heapLookup_cons]
      by_cases hjk : j = k
      · rw [if_pos hjk, if_pos hjk]
        rfl
      · rw [if_neg hjk, if_neg hjk]
        exact ih
    · rw [if_neg hki, heapLookup_cons, heapLookup_cons]
      by_cases hjk : j = k
      · rw [if_pos hjk, if_pos hjk]
      · rw [if_neg hjk, if_neg hjk]
        exact ih

theorem release_active_head (s : BallPool) (bid : Nat) (rest : List Nat)
    (hact : s.active = bid :: rest) (hsome : (heapGet s.heap bid).isSome = true) :
    (s.release bid).active = rest ∧ (s.release bid).pool = s.pool ++ [bid] ∧
    ∀ j, (heapGet (s.release bid).heap j).isSome = (heapGet s.heap j).isSome := by
  unfold BallPool.release
  cases hg : heapGet s.heap bid with
  | none => rw [hg] at hsome; simp at hsome
  | some b =>
    dsimp only
    rw [hact]
    rw [if_pos (List.mem_cons_self bid rest)]
    dsimp only
    refine ⟨List.erase_cons_head bid rest, rfl, ?_⟩
    intro j
    exact heapGet_isSome_heapSet bid j _ s.heap

theorem releaseList_active (c : List Nat) :
    ∀ s : BallPool, s.active = c →
      (∀ j ∈ c, (heapGet s.heap j).isSome = true) →
      (BallPool.releaseList s c).active = [] ∧
      (BallPool.releaseList s c).pool = s.pool ++ c := by
  induction c with
  | nil =>
    intro s hact _
    exact ⟨hact, by simp [BallPool.releaseList]⟩
  | cons bid rest ih =>
    intro s hact hwf
    unfold BallPool.releaseList
    obtain ⟨ha, hp, hh⟩ :=
      release_active_head s bid rest hact (hwf bid (List.mem_cons_self bid rest))
    have hwf' : ∀ j ∈ rest, (heapGet (s.release bid).heap j).isSome = true := by
      intro j hj
      rw [hh j]
      exact hwf j (List.mem_cons_of_mem bid hj)
    obtain ⟨h1, h2⟩ := ih (s.release bid) ha hwf'
    refine ⟨h1, ?_⟩
    rw [h2, hp, List.append_assoc, List.singleton_append]

/-- Claim C5: `releaseAll` on a pool with `N` active balls releases
every one of them — the active list is snapshotted before iterating, so
no element is skipped even though `release` mutates the list — leaving
the active list empty and the free list longer by exactly `N`. -/
theorem releaseAll_empties_active (s : BallPool)
    (hwf : ∀ j ∈ s.active, (heapGet s.heap j).isSome = true) :
    s.releaseAll.active = [] ∧
    s.releaseAll.pool = s.pool ++ s.active ∧
    s.releaseAll.pool.length = s.pool.length + s.active.length := by
  unfold BallPool.releaseAll
  obtain ⟨h1, h2⟩ := releaseList_active s.active s rfl hwf
  exact ⟨h1, h2, by rw [h2, List.length_append]⟩

/-- A concrete pool with two pre-allocated balls, both acquired. -/
def witnessPool : BallPool :=
  ((( BallPool.initialize BallPool.empty 2).acquire 100).2.acquire 200).2

/-- Witness for claim C5's theorem: releasing all balls of the concrete
two-ball pool empties the active list and grows the free list by 2. -/
theorem releaseAll_empties_active_witness :
    witnessPool.releaseAll.active = [] ∧
    witnessPool.releaseAll.pool.length =
      witnessPool.pool.length + witnessPool.active.length := by
  have h := releaseAll_empties_active witnessPool (by decide)
  exact ⟨h.1, h.2.2⟩

/-- A fresh primary pool initialized with `maxSize = 10`. -/
def scenarioPool0 : BallPool :=
  BallPool.initialize BallPool.empty 10

/-- A sequence of acquire calls, collecting the returned ball ids. -/
def acquireMany : Nat → BallPool → List Nat × BallPool
  | 0, s => ([], s)
  | n + 1, s =>
      let r := s.acquire 0xFF0000
      let rest := acquireMany n r.2
      (r.1 :: rest.1, rest.2)

/-- The ids returned by 12 successive acquires on the fresh pool. -/
def scenarioIds : List Nat :=
  (acquireMany 12 scenarioPool0).1

/-- The pool state after those 12 acquires. -/
def scenarioPool12 : BallPool :=
  (acquireMany 12 scenarioPool0).2

/-- Claim C6: after `initialize(10)` on a fresh primary pool, 12
acquire calls all succeed; the first 10 return the pre-allocated balls
popped from the free list (no new construction — the heap stays at 10
balls until the free list empties), the 11th and 12th construct the new
balls 10 and 11 on demand; after releasing all 12 the free list holds
12 balls and the active list is empty. -/
theorem pool_scenario_twelve_acquires :
    scenarioPool0.pool = [0, 1, 2, 3, 4, 5, 6, 7, 8, 9] ∧
    scenarioPool0.active = [] ∧
    scenarioPool0.heap.length = 10 ∧
    scenarioIds = [9, 8, 7, 6, 5, 4, 3, 2, 1, 0, 10, 11] ∧
    (∀ i ∈ scenarioIds.take 10, i ∈ scenarioPool0.pool) ∧
    10 ∉ scenarioPool0.pool ∧ 11 ∉ scenarioPool0.pool ∧
    (acquireMany 10 scenarioPool0).2.heap.length = 10 ∧
    scenarioPool12.heap.length = 12 ∧
    scenarioPool12.pool = [] ∧
    scenarioPool12.active.length = 12 ∧
    scenarioPool12.releaseAll.pool.length = 12 ∧
    scenarioPool12.releaseAll.active = [] := by
  decide

/-- A pool holding one ball in its heap that is in neither the free
list nor the active list (for instance a ball freshly created and never
pooled): the configuration claim C3 quantifies over. -/
def strayBallPool : BallPool :=
  ⟨[(0, Ball.create)], [], [], none, 1⟩

/-- Counterexample to claim C3: releasing a ball that is not in the
active list is not a complete no-op on the instance — the free/active
lists are untouched and no error occurs, but the ball's own state is
still reset: its visibility flips from true to false. -/
theorem release_inactive_mutates_instance :
    0 ∉ strayBallPool.active ∧
    (strayBallPool.release 0).pool = strayBallPool.pool ∧
    (strayBallPool.release 0).active = strayBallPool.active ∧
    (heapGet strayBallPool.heap 0).map Ball.visible = some true ∧
    (heapGet (strayBallPool.release 0).heap 0).map Ball.visible = some false := by
  decide

theorem resetBall_idem (b : Ball) :
    BallPool.resetBall (BallPool.resetBall b) = BallPool.resetBall b := rfl

theorem resetBall_cascade (b : Ball) (lp : Option LabelPool) :
    BallPool.resetBall (releaseCascade (BallPool.resetBall b) lp).1 =
      (releaseCascade (BallPool.resetBall b) lp).1 := by
  obtain ⟨v1, p1, sc1, c1, e1, ei1, ve1, ir1, rg1, ra1, oc1, ran1, ih1, if1, lb1,
    ap1, ts1, bs1, cm1, sb1, se1, ic1, tc1, cp1, cs1, in1, sw1⟩ := b
  cases lb1 <;> cases lp <;> rfl

theorem releaseCascade_idem (b : Ball) (lp : Option LabelPool) :
    releaseCascade (releaseCascade (BallPool.resetBall b) lp).1
        (releaseCascade (BallPool.resetBall b) lp).2 =
      releaseCascade (BallPool.resetBall b) lp := by
  obtain ⟨v1, p1, sc1, c1, e1, ei1, ve1, ir1, rg1, ra1, oc1, ran1, ih1, if1, lb1,
    ap1, ts1, bs1, cm1, sb1, se1, ic1, tc1, cp1, cs1, in1, sw1⟩ := b
  cases lb1 <;> cases lp <;> rfl

theorem heapGet_heapSet_of_some (i : Nat) (b v : Ball) :
    ∀ hp : List (Nat × Ball), heapGet hp i = some b →
      heapGet (heapSet hp i v) i = some v := by
  intro hp
  induction hp with
  | nil => intro h; exact absurd h (by simp [heapGet])
  | cons p rest ih =>
    obtain ⟨k, x⟩ := p
    intro h
    unfold heapSet at *
    simp only [List.map_cons]
    unfold heapGet at *
    by_cases hki : k = i
    · rw [if_pos hki]
      rw [heapLookup_cons, if_pos hki.symm]
    · rw [if_neg hki]
      rw [heapLookup_cons, if_neg (fun hik => hki hik.symm)]
      rw [heapLookup_cons, if_neg (fun hik => hki hik.symm)] at h
      exact ih h

theorem heapSet_heapSet (i : Nat) (u v : Ball) (hp : List (Nat × Ball)) :
    heapSet (heapSet hp i u) i v = heapSet hp i v := by
  simp only [heapSet, List.map_map]
  congr 1
  funext p
  by_cases h : p.1 = i <;> simp [h]

/-- Claim C3 (amended): releasing a ball that is not in the active list
raises no error and leaves the pool's free and active lists completely
unchanged, and a second release of the same ball has no further effect
(release twice equals release once); however, the instance's own state
is still reset by the call — it is not left untouched. -/
theorem release_inactive_lists_unchanged (s : BallPool) (bid : Nat)
    (h : bid ∉ s.active) :
    (s.release bid).pool = s.pool ∧ (s.release bid).active = s.active ∧
    (s.release bid).release bid = s.release bid := by
  cases hg : heapGet s.heap bid with
  | none =>
    have he : s.release bid = s := by
      unfold BallPool.release
      rw [hg]
    rw [he]
    exact ⟨rfl, rfl, he⟩
  | some b =>
    have he : s.release bid =
        { s with
            heap := heapSet s.heap bid (releaseCascade (BallPool.resetBall b) s.labelPool).1,
            labelPool := (releaseCascade (BallPool.resetBall b) s.labelPool).2 } := by
      unfold BallPool.release
      rw [hg]
      dsimp only
      rw [if_neg h]
    refine ⟨by rw [he], by rw [he], ?_⟩
    rw [he]
    have hg' : heapGet
        (heapSet s.heap bid (releaseCascade (BallPool.resetBall b) s.labelPool).1) bid =
        some (releaseCascade (BallPool.resetBall b) s.labelPool).1 :=
      heapGet_heapSet_of_some bid b _ s.heap hg
    unfold BallPool.release
    dsimp only
    rw [hg']
    dsimp only
    rw [if_neg h]
    rw [resetBall_cascade b s.labelPool]
    rw [releaseCascade_idem b s.labelPool]
    rw [heapSet_heapSet]

/-- Witness for claim C3's amended theorem at the concrete stray-ball
pool: the lists are unchanged and the double release collapses. -/
theorem release_inactive_lists_unchanged_witness :
    (strayBallPool.release 0).pool = strayBallPool.pool ∧
    (strayBallPool.release 0).active = strayBallPool.active ∧
    (strayBallPool.release 0).release 0 = strayBallPool.release 0 := by
  have h := release_inactive_lists_unchanged strayBallPool 0 (by decide)
  exact ⟨h.1, h.2.1, h.2.2⟩

theorem labelLookup_cons (j k : String) (v : Nat) (rest : List (String × Nat)) :
    List.lookup j ((k, v) :: rest) = if j = k then some v else List.lookup j rest := by
  by_cases h : j = k
  · subst h
    simp [List.lookup]
  · have hb : (j == k) = false := beq_eq_false_iff_ne.mpr h
    simp [List.lookup, hb, h]

theorem labelLookup_append_of_none (k : String) (v : Nat) :
    ∀ l : List (String × Nat), List.lookup k l = none →
      List.lookup k (l ++ [(k, v)]) = some v := by
  intro l
  induction l with
  | nil =>
    intro _
    simp [List.lookup]
  | cons p rest ih =>
    obtain ⟨k1, v1⟩ := p
    intro h
    rw [labelLookup_cons] at h
    rw [List.cons_append, labelLookup_cons]
    by_cases hk : k = k1
    · rw [if_pos hk] at h
      exact absurd h (by simp)
    · rw [if_neg hk] at h
      rw [if_neg hk]
      exact ih h

/-- Claim C7: on a pool whose font is loaded and whose template cache
has no entry for `n`, two successive `acquire n` calls return two
distinct clone identities, neither of which is the cached template; the
template is constructed exactly once across both calls (the second call
hits the cache and leaves it unchanged).  When the font is not loaded,
`acquire` returns `none` and changes nothing. -/
theorem labelPool_template_cached_once (s s2 : LabelPool) (n n2 : Int) :
    (s.loadedFont = true → List.lookup (toString n) s.pool = none →
      (s.acquire n).1 = some (s.nextId + 1) ∧
      ((s.acquire n).2.acquire n).1 = some (s.nextId + 2) ∧
      List.lookup (toString n) (s.acquire n).2.pool = some s.nextId ∧
      ((s.acquire n).2.acquire n).2.pool = (s.acquire n).2.pool ∧
      (s.acquire n).2.createCount = s.createCount + 1 ∧
      ((s.acquire n).2.acquire n).2.createCount = s.createCount + 1 ∧
      s.nextId + 1 ≠ s.nextId ∧ s.nextId + 2 ≠ s.nextId ∧
      s.nextId + 1 ≠ s.nextId + 2) ∧
    (s2.loadedFont = false → s2.acquire n2 = (none, s2)) := by
  constructor
  · intro hfont hmiss
    have hstep1 : s.acquire n =
        (some (s.nextId + 1),
         { pool := s.pool ++ [(toString n, s.nextId)],
           active := s.active ++ [s.nextId + 1],
           loadedFont := s.loadedFont,
           heap := (s.heap ++ [(s.nextId, ⟨false⟩)]) ++ [(s.nextId + 1, ⟨true⟩)],
           nextId := s.nextId + 2,
           createCount := s.createCount + 1 }) := by
      unfold LabelPool.acquire
      rw [if_neg (by simp [hfont])]
      dsimp only
      rw [hmiss]
      unfold LabelPool.createLabel
      rfl
    have hhit : List.lookup (toString n) (s.pool ++ [(toString n, s.nextId)]) =
        some s.nextId := labelLookup_append_of_none (toString n) s.nextId s.pool hmiss
    have hstep2 : ((s.acquire n).2.acquire n).1 = some (s.nextId + 2) ∧
        ((s.acquire n).2.acquire n).2.pool = (s.acquire n).2.pool ∧
        ((s.acquire n).2.acquire n).2.createCount = s.createCount + 1 := by
      rw [hstep1]
      dsimp only
      unfold LabelPool.acquire
      rw [if_neg (by simp [hfont])]
      dsimp only
      rw [hhit]
      exact ⟨rfl, rfl, rfl⟩
    refine ⟨by rw [hstep1], hstep2.1, ?_, hstep2.2.1, by rw [hstep1], hstep2.2.2,
      by simp, by simp, by simp⟩
    rw [hstep1]
    exact hhit
  · intro hfont
    unfold LabelPool.acquire
    rw [if_pos hfont]

/-- A fresh label pool whose font has been loaded. -/
def labelPoolLoaded : LabelPool :=
  ⟨[], [], true, [], 0, 0⟩

/-- A fresh label pool whose font has not been loaded yet. -/
def labelPoolNoFont : LabelPool :=
  ⟨[], [], false, [], 0, 0⟩

/-- Witness for claim C7's theorem at concrete inputs: acquiring the
label for 7 twice on a fresh loaded pool returns the distinct clones 1
and 2 (the template being 0), constructs one template, and acquiring on
a pool with no font returns `none`. -/
theorem labelPool_template_cached_once_witness :
    (labelPoolLoaded.acquire 7).1 = some 1 ∧
    ((labelPoolLoaded.acquire 7).2.acquire 7).1 = some 2 ∧
    ((labelPoolLoaded.acquire 7).2.acquire 7).2.createCount = 1 ∧
    labelPoolNoFont.acquire 3 = (none, labelPoolNoFont) := by
  have h := labelPool_template_cached_once labelPoolLoaded labelPoolNoFont 7 3
  have h1 := h.1 rfl rfl
  exact ⟨h1.1, h1.2.1, h1.2.2.2.2.2.1, h.2 rfl⟩
